import Mathlib

/-!
# TLS record handling (`src/tls/tls_record.h`)

A shallow embedding of the cipher state and record classes declared in
`tls_record.h`, together with a model of the record writer and reader, and
the properties of them that the record-layer specification states.

Conventions of the embedding:

* `byte` is `Fin 256`; `size_t` and `u64bit` quantities are natural numbers
  (the accessors embedded here only store, return and compare them, so no
  wrap-around can occur; where a value is serialised into a fixed number of
  bytes the reduction is written out with `%`);
* a `std::unique_ptr<T>` is an `Option T` (`none` is the null pointer);
  dereferencing it yields an `Option` result;
* a `std::vector<byte>` is a `List byte`.
-/

namespace Botan
namespace TLS

/-! ## Types the header takes from other headers -/

/-- A byte, the element type of every buffer (`typedef unsigned char byte`). -/
abbrev byte := Fin 256

/-- Modelled from the spec: `Protocol_Version` is declared in `tls_version.h`,
which is not part of the sources at hand. The spec describes it as a
(major, minor) pair, each sent as one byte of the record header. -/
structure Protocol_Version where
  major_version : byte
  minor_version : byte
deriving DecidableEq, Repr

/-- Modelled from the spec: `Record_Type` is declared in `tls_magic.h`, which is
not part of the sources at hand. The spec lists its members as
change_cipher_spec, alert, handshake, application_data, heartbeat and the
invalid sentinel no_record. -/
inductive Record_Type where
  | NO_RECORD
  | CHANGE_CIPHER_SPEC
  | ALERT
  | HANDSHAKE
  | APPLICATION_DATA
  | HEARTBEAT
deriving DecidableEq, Repr

export Record_Type (NO_RECORD CHANGE_CIPHER_SPEC ALERT HANDSHAKE APPLICATION_DATA HEARTBEAT)

/-- Modelled from the spec: `BlockCipher` is declared in `block_cipher.h`, which is
not part of the sources at hand. The record layer uses it as an opaque
capability: its block size, and the encryption and decryption of one block
under the key the object was set up with. -/
structure BlockCipher where
  block_size : Nat
  encrypt : List byte → List byte
  decrypt : List byte → List byte

/-- Modelled from the spec: `StreamCipher` is declared in `stream_cipher.h`, which
is not part of the sources at hand. The spec has it XOR a keystream into the
data: it is the keystream of the key the object was set up with and the
position reached in it. -/
structure StreamCipher where
  keystream : Nat → byte
  position : Nat

/-- Modelled from the spec: `MessageAuthenticationCode` is declared in `mac.h`,
which is not part of the sources at hand. `output_length` is the member
function `mac_size()` calls; `compute` is the tag of a message under the key
the object was set up with. -/
structure MessageAuthenticationCode where
  output_length : Nat
  compute : List byte → List byte

/-! ## `Connection_Cipher_State` -/

/-- The data members of `class Connection_Cipher_State`, in declaration order.
The in-class initialisers (`m_block_size = 0`, `m_iv_size = 0`,
`m_is_ssl3 = false`) are kept as field defaults. `m_start_time` is a reading of
the system clock, a signed count of clock ticks. -/
structure Connection_Cipher_State where
  m_start_time : Int
  m_block_cipher : Option BlockCipher
  m_block_cipher_cbc_state : List byte
  m_stream_cipher : Option StreamCipher
  m_mac : Option MessageAuthenticationCode
  m_block_size : Nat := 0
  m_iv_size : Nat := 0
  m_is_ssl3 : Bool := false

namespace Connection_Cipher_State

/-- `BlockCipher* block_cipher() { return m_block_cipher.get(); }` -/
def block_cipher (cs : Connection_Cipher_State) : Option BlockCipher := cs.m_block_cipher

/-- `StreamCipher* stream_cipher() { return m_stream_cipher.get(); }` -/
def stream_cipher (cs : Connection_Cipher_State) : Option StreamCipher := cs.m_stream_cipher

/-- `MessageAuthenticationCode* mac() { return m_mac.get(); }` -/
def mac (cs : Connection_Cipher_State) : Option MessageAuthenticationCode := cs.m_mac

/-- `secure_vector<byte>& cbc_state() { return m_block_cipher_cbc_state; }` -/
def cbc_state (cs : Connection_Cipher_State) : List byte := cs.m_block_cipher_cbc_state

/-- `size_t block_size() const { return m_block_size; }` -/
def block_size (cs : Connection_Cipher_State) : Nat := cs.m_block_size

/-- `size_t mac_size() const { return m_mac->output_length(); }`; the result is
`none` when `m_mac` is null, where the dereference is undefined. -/
def mac_size (cs : Connection_Cipher_State) : Option Nat :=
  match cs.m_mac with
  | some m => some m.output_length
  | none => none

/-- `size_t iv_size() const { return m_iv_size; }` -/
def iv_size (cs : Connection_Cipher_State) : Nat := cs.m_iv_size

/-- `bool mac_includes_record_version() const { return !m_is_ssl3; }` -/
def mac_includes_record_version (cs : Connection_Cipher_State) : Bool := !cs.m_is_ssl3

/-- `bool cipher_padding_single_byte() const { return m_is_ssl3; }` -/
def cipher_padding_single_byte (cs : Connection_Cipher_State) : Bool := cs.m_is_ssl3

/-- `bool cbc_without_explicit_iv() const
{ return (m_block_size > 0) && (m_iv_size == 0); }` -/
def cbc_without_explicit_iv (cs : Connection_Cipher_State) : Bool :=
  decide (cs.m_block_size > 0) && (cs.m_iv_size == 0)

/-- `age()`: `duration_cast<seconds>(system_clock::now() - m_start_time)`. The
clock reading `now` and the number of clock ticks in a second are passed in;
the difference is signed, and the cast to whole seconds truncates toward
zero. -/
def age (cs : Connection_Cipher_State) (now : Int) (ticks_per_second : Int) : Int :=
  (now - cs.m_start_time).tdiv ticks_per_second

end Connection_Cipher_State

/-! ## `Record` -/

/-- The data members of `class Record`, in declaration order. -/
structure Record where
  m_sequence : Nat
  m_version : Protocol_Version
  m_type : Record_Type
  m_contents : List byte
deriving DecidableEq, Repr

namespace Record

/-- `Record() {}`: every member takes its in-class initialiser, `m_sequence = 0`,
`m_version = Protocol_Version()`, `m_type = NO_RECORD`, and an empty vector.
The value of a default-constructed `Protocol_Version` is fixed by
`tls_version.h`, so it is a parameter here. -/
def default (default_version : Protocol_Version) : Record :=
  { m_sequence := 0, m_version := default_version, m_type := NO_RECORD, m_contents := [] }

/-- `Record(sequence, version, type, contents, contents_size)`: the vector is
built from the range `[contents, contents + contents_size)`, the first
`contents_size` bytes of the array `contents` points to. -/
def create (sequence : Nat) (version : Protocol_Version) (type : Record_Type)
    (contents : List byte) (contents_size : Nat) : Record :=
  { m_sequence := sequence, m_version := version, m_type := type,
    m_contents := contents.take contents_size }

/-- `bool is_valid() const { return m_type != NO_RECORD; }` -/
def is_valid (r : Record) : Bool := r.m_type != NO_RECORD

/-- `u64bit sequence() const { return m_sequence; }` -/
def sequence (r : Record) : Nat := r.m_sequence

/-- `Record_Type type() const { return m_type; }` -/
def type (r : Record) : Record_Type := r.m_type

/-- `Protocol_Version version() const { return m_version; }` -/
def version (r : Record) : Protocol_Version := r.m_version

/-- `const std::vector<byte>& contents() const { return m_contents; }` -/
def contents (r : Record) : List byte := r.m_contents

/-- `size_t size() const { return m_contents.size(); }` -/
def size (r : Record) : Nat := r.m_contents.length

/-- The index `bits()` passes to `operator[]`: `&m_contents[0]`. -/
def bits_index : Nat := 0

/-- `const byte* bits() const { return &m_contents[0]; }`: the element the
returned pointer designates, `none` when index 0 is not an element of the
vector. -/
def bits (r : Record) : Option byte := r.m_contents.get? bits_index

end Record

/-! ## Collaborators of the record layer

`tls_record.h` forward-declares `Connection_Sequence_Numbers` and takes a
`RandomNumberGenerator`; the bodies of `write_record` and `read_record` are in
a translation unit that is not part of the sources at hand. -/

/-- Modelled from the spec: `Connection_Sequence_Numbers` is only forward-declared
in the header. The spec describes, per direction and epoch, a 64-bit counter
starting at 0 and incremented by one per record; the registry also knows the
epoch currently in effect for each direction. -/
structure Connection_Sequence_Numbers where
  write_epoch : Nat
  read_epoch : Nat
  write_seq_no : Nat → Nat
  read_seq_no : Nat → Nat

namespace Connection_Sequence_Numbers

/-- Modelled from the spec: `next_write_sequence(epoch)`, which is declared outside
the sources at hand, allocates and returns the counter of the epoch. -/
def next_write_sequence (s : Connection_Sequence_Numbers) (epoch : Nat) :
    Nat × Connection_Sequence_Numbers :=
  (s.write_seq_no epoch,
   { s with write_seq_no :=
       Function.update s.write_seq_no epoch ((s.write_seq_no epoch + 1) % 2 ^ 64) })

/-- Modelled from the spec: `next_read_sequence(epoch)`, which is declared outside
the sources at hand, allocates and returns the counter of the epoch. -/
def next_read_sequence (s : Connection_Sequence_Numbers) (epoch : Nat) :
    Nat × Connection_Sequence_Numbers :=
  (s.read_seq_no epoch,
   { s with read_seq_no :=
       Function.update s.read_seq_no epoch ((s.read_seq_no epoch + 1) % 2 ^ 64) })

end Connection_Sequence_Numbers

/-- Modelled from the spec: `RandomNumberGenerator` is declared outside the sources
at hand; the spec uses it as a byte source for explicit IVs. It is the stream
of bytes it will hand out and the position reached in it. -/
structure RandomNumberGenerator where
  output : Nat → byte
  position : Nat

/-- Modelled from the spec: drawing `n` fresh bytes from the random source. -/
def RandomNumberGenerator.randomize (rng : RandomNumberGenerator) (n : Nat) :
    List byte × RandomNumberGenerator :=
  ((List.range n).map (fun i => rng.output (rng.position + i)),
   { rng with position := rng.position + n })

/-- Modelled from the spec: the protocol constants of `tls_magic.h` and
`tls_version.h` the reader depends on, none of which the spec gives a value:
the default-constructed `Protocol_Version`, the conversion of the header type
byte to a `Record_Type`, and the protocol-legal maximum ciphertext length. -/
structure Protocol_Constants where
  default_version : Protocol_Version
  record_type_of : byte → Record_Type
  max_ciphertext_size : Nat

/-- Modelled from the spec: the error kinds of section 7. -/
inductive TLS_Error where
  | FramingError
  | RecordOverflow
  | BadRecordMac
  | CipherError
deriving DecidableEq, Repr

/-- Modelled from the spec: size of the record header, `type:u8, version_major:u8,
version_minor:u8, length:u16`. -/
def TLS_HEADER_SIZE : Nat := 5

/-- Modelled from the spec: maximum plaintext content per record. -/
def MAX_PLAINTEXT_SIZE : Nat := 16384

/-! ## Byte helpers -/

/-- Conversion of an integer to `byte`, keeping the low eight bits. -/
def to_byte (n : Nat) : byte := ⟨n % 256, Nat.mod_lt n (by decide)⟩

/-- XOR of two bytes. -/
def xor_byte (a b : byte) : byte := to_byte (a.val ^^^ b.val)

/-- XOR of a mask into a buffer, byte by byte. -/
def xor_buf (buf mask : List byte) : List byte := List.zipWith xor_byte buf mask

/-- A 16-bit value as two big-endian bytes. -/
def store_be16 (n : Nat) : List byte := [to_byte (n / 256), to_byte n]

/-- The 16-bit value of two big-endian bytes. -/
def load_be16 (hi lo : byte) : Nat := hi.val * 256 + lo.val

/-- A 64-bit value as eight big-endian bytes. -/
def store_be64 (n : Nat) : List byte :=
  (List.range 8).map (fun i => to_byte (n / 256 ^ (7 - i)))

/-- Modelled from the spec: the keystream XOR of a stream cipher (section 4.1
step 3d): XOR the next keystream bytes into the buffer and advance the
keystream position. -/
def StreamCipher.cipher1 (sc : StreamCipher) (buf : List byte) : List byte × StreamCipher :=
  (xor_buf buf ((List.range buf.length).map (fun i => sc.keystream (sc.position + i))),
   { sc with position := sc.position + buf.length })

/-- Modelled from the spec: CBC encryption (section 4.1 step 3d) of `blocks` blocks
of `block_size` bytes, chained from `state`; returns the ciphertext and the
last ciphertext block. -/
def cbc_encrypt (bc : BlockCipher) (block_size : Nat) :
    Nat → List byte → List byte → List byte × List byte
  | 0, state, _ => ([], state)
  | blocks + 1, state, buf =>
    let c := bc.encrypt (xor_buf (buf.take block_size) state)
    let rest := cbc_encrypt bc block_size blocks c (buf.drop block_size)
    (c ++ rest.1, rest.2)

/-- Modelled from the spec: CBC decryption (section 4.2 step 6a) of `blocks` blocks
of `block_size` bytes, chained from `state`; returns the plaintext and the
last ciphertext block. -/
def cbc_decrypt (bc : BlockCipher) (block_size : Nat) :
    Nat → List byte → List byte → List byte × List byte
  | 0, state, _ => ([], state)
  | blocks + 1, state, buf =>
    let c := buf.take block_size
    let p := xor_buf (bc.decrypt c) state
    let rest := cbc_decrypt bc block_size blocks c (buf.drop block_size)
    (p ++ rest.1, rest.2)

/-! ## Record writer -/

/-- Modelled from the spec: the 5-byte record header `{type, version, length}`
of section 6, big-endian. -/
def record_header (msg_type : byte) (version : Protocol_Version) (length : Nat) : List byte :=
  [msg_type, version.major_version, version.minor_version] ++ store_be16 length

/-- Modelled from the spec: the MAC input of section 4.1 step 3a,
`seq_num(8B big-endian) ∥ type(1B) ∥ version(2B, omitted for SSLv3) ∥ length(2B) ∥ msg_bytes`. -/
def mac_input (cs : Connection_Cipher_State) (seq : Nat) (msg_type : byte)
    (version : Protocol_Version) (msg : List byte) : List byte :=
  store_be64 seq ++ [msg_type]
    ++ (if cs.mac_includes_record_version then
          [version.major_version, version.minor_version] else [])
    ++ store_be16 msg.length ++ msg

/-- Modelled from the spec: the minimal `pad_len` of at least one byte that makes
`len + pad_len` a multiple of `block_size` (section 4.1 step 3b). -/
def pad_length (block_size len : Nat) : Nat := block_size - len % block_size

/-- Modelled from the spec: the padding of section 4.1 step 3b appended to `len` bytes.
TLS: every pad byte holds `pad_len - 1`. SSLv3 (`cipher_padding_single_byte`):
only the final byte is constrained; the free bytes are written as zero. -/
def cbc_padding (cs : Connection_Cipher_State) (len : Nat) : List byte :=
  let pad_len := pad_length cs.block_size len
  if cs.cipher_padding_single_byte then
    List.replicate (pad_len - 1) (0 : byte) ++ [to_byte (pad_len - 1)]
  else
    List.replicate pad_len (to_byte (pad_len - 1))

/-- What a call of `write_record` leaves behind, after its declaration: the
output buffer `write_buffer` and the states it received by reference or
pointer. -/
structure Write_Result where
  write_buffer : List byte
  sequence_numbers : Connection_Sequence_Numbers
  cipherstate : Option Connection_Cipher_State
  rng : RandomNumberGenerator

/-- Modelled from the spec: `write_record` is declared in `tls_record.h` and defined
outside the sources at hand; this follows section 4.1 step by step. A cipher
state that breaks its invariant (no MAC, or not exactly one cipher) is
reported as a `CipherError`. -/
def write_record (write_buffer : List byte) (msg_type : byte) (msg : List byte)
    (version : Protocol_Version) (sequence_numbers : Connection_Sequence_Numbers)
    (cipherstate : Option Connection_Cipher_State) (rng : RandomNumberGenerator) :
    Except TLS_Error Write_Result :=
  -- step 1: allocate the sequence number
  let alloc := sequence_numbers.next_write_sequence sequence_numbers.write_epoch
  -- framing limit on the plaintext
  if msg.length > MAX_PLAINTEXT_SIZE then .error .FramingError
  else
    match cipherstate with
    | none =>
      -- step 2: plaintext record
      .ok { write_buffer := write_buffer ++ record_header msg_type version msg.length ++ msg,
            sequence_numbers := alloc.2, cipherstate := none, rng := rng }
    | some cs =>
      match cs.mac with
      | none => .error .CipherError
      | some mac =>
        -- step 3a: MAC appended to the plaintext
        let plain := msg ++ mac.compute (mac_input cs alloc.1 msg_type version msg)
        match cs.block_cipher, cs.stream_cipher with
        | some bc, none =>
          -- step 3b: padding
          let padded := plain ++ cbc_padding cs plain.length
          let blocks := padded.length / cs.block_size
          if cs.cbc_without_explicit_iv then
            -- step 3c/3d: chain from the residual state and persist the new one
            let enc := cbc_encrypt bc cs.block_size blocks cs.cbc_state padded
            .ok { write_buffer :=
                    write_buffer ++ record_header msg_type version enc.1.length ++ enc.1,
                  sequence_numbers := alloc.2,
                  cipherstate := some { cs with m_block_cipher_cbc_state := enc.2 },
                  rng := rng }
          else
            -- step 3c/3d: fresh explicit IV, sent in the clear, nothing persisted
            let iv := rng.randomize cs.iv_size
            let enc := cbc_encrypt bc cs.block_size blocks iv.1 padded
            .ok { write_buffer :=
                    write_buffer
                      ++ record_header msg_type version (iv.1.length + enc.1.length)
                      ++ iv.1 ++ enc.1,
                  sequence_numbers := alloc.2, cipherstate := some cs, rng := iv.2 }
        | none, some sc =>
          let enc := sc.cipher1 plain
          if cs.cbc_without_explicit_iv then
            .ok { write_buffer :=
                    write_buffer ++ record_header msg_type version enc.1.length ++ enc.1,
                  sequence_numbers := alloc.2,
                  cipherstate := some { cs with m_stream_cipher := some enc.2 },
                  rng := rng }
          else
            let iv := rng.randomize cs.iv_size
            .ok { write_buffer :=
                    write_buffer
                      ++ record_header msg_type version (iv.1.length + enc.1.length)
                      ++ iv.1 ++ enc.1,
                  sequence_numbers := alloc.2,
                  cipherstate := some { cs with m_stream_cipher := some enc.2 },
                  rng := iv.2 }
        | _, _ => .error .CipherError

/-! ## Record reader -/

/-- What a call of `read_record` leaves behind, after its declaration: the
accumulation buffer `read_buffer`, the output parameters `input_consumed` and
`output_record`, the states it received by pointer, and the return value
`bytes_needed`. -/
structure Read_Result where
  read_buffer : List byte
  input_consumed : Nat
  output_record : Record
  sequence_numbers : Option Connection_Sequence_Numbers
  cipherstate : Option Connection_Cipher_State
  bytes_needed : Nat

/-- Modelled from the spec: the absorption of section 4.2 step 1. Of the input not
yet consumed, as many bytes are appended to the accumulation buffer as it
lacks to hold `desired` bytes; returns the buffer and the updated count of
consumed input bytes. -/
def fill_buffer_to (read_buffer input : List byte) (input_consumed desired : Nat) :
    List byte × Nat :=
  let taken := min (input.length - input_consumed) (desired - read_buffer.length)
  (read_buffer ++ (input.drop input_consumed).take taken, input_consumed + taken)

/-- Modelled from the spec: the `length` field of a buffered header (bytes 3 and 4,
big-endian). -/
def header_length (buf : List byte) : Nat := load_be16 (buf.getD 3 0) (buf.getD 4 0)

/-- Modelled from the spec: padding validation of section 4.2 step 6c. The claimed
`pad_len` is one more than the final byte; it must obey the length rule of the
writer (at most one block, and not longer than the data), and in TLS mode every
pad byte must hold `pad_len - 1`. Returns the claimed `pad_len` when the
padding is consistent. -/
def check_padding (cs : Connection_Cipher_State) (plain : List byte) : Option Nat :=
  match plain.getLast? with
  | none => none
  | some last =>
    let pad_len := last.val + 1
    if pad_len > cs.block_size ∨ pad_len > plain.length then none
    else if cs.cipher_padding_single_byte then some pad_len
    else if (plain.drop (plain.length - pad_len)).all (fun b => b == last) then some pad_len
    else none

/-- Modelled from the spec: section 4.2 step 6c/6d on the decrypted bytes: strip
the claimed padding (`none` for a stream cipher, which has none), split off the
trailing MAC, recompute the MAC over the content and compare. Padding and MAC
failures both surface as `BadRecordMac`. -/
def verify_and_strip (cs : Connection_Cipher_State) (mac : MessageAuthenticationCode)
    (seq : Nat) (msg_type : byte) (version : Protocol_Version)
    (plain : List byte) (pad_len : Option Nat) : Except TLS_Error (List byte) :=
  let claimed := pad_len.getD 0
  let content_len := plain.length - claimed - mac.output_length
  let content := plain.take content_len
  let received_mac := (plain.drop content_len).take mac.output_length
  let mac_ok := decide (received_mac = mac.compute (mac_input cs seq msg_type version content))
  let length_ok := decide (claimed + mac.output_length ≤ plain.length)
  if mac_ok && length_ok then .ok content else .error .BadRecordMac

/-- Modelled from the spec: section 4.2 step 6, the decryption of the `length`
bytes of a complete record under a cipher state. Returns the recovered content
and the cipher state after the call. A cipher state that breaks its invariant
(no MAC, or not exactly one cipher) is reported as a `CipherError`. -/
def decrypt_record (cs : Connection_Cipher_State) (seq : Nat) (msg_type : byte)
    (version : Protocol_Version) (body : List byte) :
    Except TLS_Error (List byte × Connection_Cipher_State) :=
  match cs.mac with
  | none => .error .CipherError
  | some mac =>
    match cs.block_cipher, cs.stream_cipher with
    | some bc, none =>
      -- step 6a: length requirement of CBC
      if body.length % cs.block_size ≠ 0 ∨ body.length < cs.block_size then
        .error .BadRecordMac
      else
        -- step 6b: explicit IV stripped, or chaining from the residual state
        let iv := if cs.cbc_without_explicit_iv then cs.cbc_state else body.take cs.iv_size
        let ct := if cs.cbc_without_explicit_iv then body else body.drop cs.iv_size
        let dec := cbc_decrypt bc cs.block_size (ct.length / cs.block_size) iv ct
        let cs_after :=
          if cs.cbc_without_explicit_iv then { cs with m_block_cipher_cbc_state := dec.2 }
          else cs
        -- step 6c/6d
        match check_padding cs dec.1 with
        | none => .error .BadRecordMac
        | some pad_len =>
          match verify_and_strip cs mac seq msg_type version dec.1 (some pad_len) with
          | .ok content => .ok (content, cs_after)
          | .error e => .error e
    | none, some sc =>
      let ct := if cs.cbc_without_explicit_iv then body else body.drop cs.iv_size
      let dec := sc.cipher1 ct
      match verify_and_strip cs mac seq msg_type version dec.1 none with
      | .ok content => .ok (content, { cs with m_stream_cipher := some dec.2 })
      | .error e => .error e
    | _, _ => .error .CipherError

/-- Modelled from the spec: the epoch whose cipher state decodes the next record,
the current read epoch of the registry; 0 when the reader is given no
registry, a case the spec leaves open. -/
def reader_epoch (sequence_numbers : Option Connection_Sequence_Numbers) : Nat :=
  match sequence_numbers with
  | some s => s.read_epoch
  | none => 0

/-- Modelled from the spec: the next read sequence number; 0 when the reader is
given no registry, a case the spec leaves open. -/
def reader_sequence (sequence_numbers : Option Connection_Sequence_Numbers) : Nat :=
  match sequence_numbers with
  | some s => (s.next_read_sequence s.read_epoch).1
  | none => 0

/-- Modelled from the spec: the registry after the next read sequence number has
been allocated. -/
def reader_advance (sequence_numbers : Option Connection_Sequence_Numbers) :
    Option Connection_Sequence_Numbers :=
  match sequence_numbers with
  | some s => some (s.next_read_sequence s.read_epoch).2
  | none => none

/-- Modelled from the spec: the result of a call that needs more input: the return
value is the number of bytes still needed and `output_record` is set invalid. -/
def need_more (pc : Protocol_Constants) (read_buffer : List byte) (input_consumed : Nat)
    (sequence_numbers : Option Connection_Sequence_Numbers) (needed : Nat) : Read_Result :=
  { read_buffer := read_buffer, input_consumed := input_consumed,
    output_record := Record.default pc.default_version,
    sequence_numbers := sequence_numbers, cipherstate := none, bytes_needed := needed }

/-- Modelled from the spec: `read_record` is declared in `tls_record.h` and defined
outside the sources at hand; this follows section 4.2 step by step. The epoch
handed to the cipher state lookup is the current read epoch of the registry;
without a registry the epoch and the sequence number are 0. On success the
accumulation buffer is emptied, and `input_consumed` is the number of input
bytes the call absorbed. -/
def read_record (pc : Protocol_Constants) (read_buffer input : List byte)
    (sequence_numbers : Option Connection_Sequence_Numbers)
    (get_cipherstate : Nat → Option Connection_Cipher_State) :
    Except TLS_Error Read_Result :=
  -- step 1: absorb input up to a complete header
  let hdr := fill_buffer_to read_buffer input 0 TLS_HEADER_SIZE
  -- step 2: header incomplete
  if hdr.1.length < TLS_HEADER_SIZE then
    .ok (need_more pc hdr.1 hdr.2 sequence_numbers (TLS_HEADER_SIZE - hdr.1.length))
  else
    -- step 3: parse the header, bound the declared length
    let record_len := header_length hdr.1
    if record_len > pc.max_ciphertext_size then .error .RecordOverflow
    else
      -- step 4: absorb input up to a complete record
      let full := fill_buffer_to hdr.1 input hdr.2 (TLS_HEADER_SIZE + record_len)
      if full.1.length < TLS_HEADER_SIZE + record_len then
        .ok (need_more pc full.1 full.2 sequence_numbers
              (TLS_HEADER_SIZE + record_len - full.1.length))
      else
        -- step 5: a full record is present
        let type_byte := full.1.getD 0 0
        let version : Protocol_Version := ⟨full.1.getD 1 0, full.1.getD 2 0⟩
        let body := (full.1.drop TLS_HEADER_SIZE).take record_len
        let epoch := reader_epoch sequence_numbers
        let seq := reader_sequence sequence_numbers
        let seqs_after := reader_advance sequence_numbers
        match get_cipherstate epoch with
        | none =>
          -- plaintext record
          .ok { read_buffer := [], input_consumed := full.2,
                output_record :=
                  Record.create seq version (pc.record_type_of type_byte) body body.length,
                sequence_numbers := seqs_after, cipherstate := none, bytes_needed := 0 }
        | some cs =>
          -- step 6, then step 7
          match decrypt_record cs seq type_byte version body with
          | .error e => .error e
          | .ok (content, cs_after) =>
            .ok { read_buffer := [], input_consumed := full.2,
                  output_record :=
                    Record.create seq version (pc.record_type_of type_byte)
                      content content.length,
                  sequence_numbers := seqs_after, cipherstate := some cs_after,
                  bytes_needed := 0 }

/-! ## Assumptions on the collaborators -/

/-- The contract of a block cipher on blocks of `block_size` bytes: encryption
keeps the block length and decryption inverts it. -/
def block_contract (bc : BlockCipher) (block_size : Nat) : Prop :=
  ∀ b : List byte, b.length = block_size →
    (bc.encrypt b).length = block_size ∧ bc.decrypt (bc.encrypt b) = b

/-- The invariant of section 3 the record layer relies on, with the contract
of the primitives it is handed: the MAC is present and its tags have the
announced length; exactly one of the block and stream cipher is present; for
a block cipher the block size is between 1 and 256 (a pad length fits one
byte), decryption inverts encryption on blocks and encryption keeps the block
length, the explicit IV is a whole number of blocks, and the CBC residual
state covers a block. -/
def Connection_Cipher_State.well_formed (cs : Connection_Cipher_State) : Prop :=
  (∃ mac, cs.m_mac = some mac ∧ ∀ x, (mac.compute x).length = mac.output_length) ∧
  ((∃ bc, cs.m_block_cipher = some bc ∧ cs.m_stream_cipher = none ∧
      0 < cs.m_block_size ∧ cs.m_block_size ≤ 256 ∧
      cs.m_iv_size % cs.m_block_size = 0 ∧
      (cs.m_iv_size = 0 → cs.m_block_size ≤ cs.m_block_cipher_cbc_state.length) ∧
      block_contract bc cs.m_block_size)
   ∨ (∃ sc, cs.m_stream_cipher = some sc ∧ cs.m_block_cipher = none))

/-- The most bytes a record grows by under a cipher state: the explicit IV,
the MAC and up to one block of padding; nothing without a cipher state. -/
def record_overhead (cipherstate : Option Connection_Cipher_State) : Nat :=
  match cipherstate with
  | none => 0
  | some cs => cs.iv_size + cs.mac_size.getD 0 + cs.block_size

/-! ## A concrete configuration

Small instances of the collaborators, on which the definitions above can be
evaluated. -/

/-- A block cipher on 4-byte blocks that reverses the block. -/
def example_block_cipher : BlockCipher :=
  { block_size := 4, encrypt := List.reverse, decrypt := List.reverse }

/-- A MAC with 2-byte tags: the length and the byte sum of the message. -/
def example_mac : MessageAuthenticationCode :=
  { output_length := 2,
    compute := fun m => [to_byte m.length, to_byte (m.map Fin.val).sum] }

/-- A block-cipher state with an explicit 4-byte IV, TLS framing. -/
def example_cipher_state : Connection_Cipher_State :=
  { m_start_time := 0, m_block_cipher := some example_block_cipher,
    m_block_cipher_cbc_state := [1, 2, 3, 4], m_stream_cipher := none,
    m_mac := some example_mac, m_block_size := 4, m_iv_size := 4, m_is_ssl3 := false }

/-- A registry whose counters of every epoch stand at 7. -/
def example_sequence_numbers : Connection_Sequence_Numbers :=
  { write_epoch := 0, read_epoch := 0, write_seq_no := fun _ => 7, read_seq_no := fun _ => 7 }

/-- A byte source handing out 1, 2, 5, 10, ... -/
def example_rng : RandomNumberGenerator :=
  { output := fun i => to_byte (i * i + 1), position := 0 }

/-- Protocol constants to evaluate the reader on: every header type byte is
read as application data, and a record may hold the maximum plaintext and
2048 bytes more. -/
def example_constants : Protocol_Constants :=
  { default_version := ⟨0, 0⟩, record_type_of := fun _ => APPLICATION_DATA,
    max_ciphertext_size := MAX_PLAINTEXT_SIZE + 2048 }

/-! ## Lemmas on the reader's buffer handling -/

theorem fill_buffer_to_length (rb inp : List byte) (c d : Nat) :
    (fill_buffer_to rb inp c d).1.length = rb.length + min (inp.length - c) (d - rb.length) := by
  simp [fill_buffer_to]

theorem need_more_invalid (pc : Protocol_Constants) (rb : List byte) (c : Nat)
    (s : Option Connection_Sequence_Numbers) (n : Nat) :
    (need_more pc rb c s n).output_record.is_valid = false := by
  simp [need_more, Record.default, Record.is_valid]

theorem header_length_append (a b : List byte) (h : TLS_HEADER_SIZE ≤ a.length) :
    header_length (a ++ b) = header_length a := by
  unfold TLS_HEADER_SIZE at h
  unfold header_length
  rw [List.getD_append _ _ _ _ (by omega), List.getD_append _ _ _ _ (by omega)]

theorem header_length_fill (rb inp : List byte) (c d : Nat) (h : TLS_HEADER_SIZE ≤ rb.length) :
    header_length (fill_buffer_to rb inp c d).1 = header_length rb := by
  simp only [fill_buffer_to]
  exact header_length_append _ _ h

theorem fill_header_avail (rb inp : List byte) (h : TLS_HEADER_SIZE ≤ rb.length + inp.length) :
    ∃ c, fill_buffer_to rb inp 0 TLS_HEADER_SIZE = (rb ++ inp.take c, c) ∧ c ≤ inp.length ∧
      TLS_HEADER_SIZE ≤ rb.length + c := by
  refine ⟨min inp.length (TLS_HEADER_SIZE - rb.length), ?_, ?_, ?_⟩
  · simp [fill_buffer_to]
  · exact Nat.min_le_left _ _
  · omega

theorem fill_body_avail (rb inp : List byte) (c d : Nat) (hc : c ≤ inp.length) :
    ∃ c2, fill_buffer_to (rb ++ inp.take c) inp c d = (rb ++ inp.take c2, c2) ∧
      c2 ≤ inp.length ∧
      (rb.length + inp.length < d → c2 = inp.length) ∧
      (d ≤ rb.length + inp.length → d ≤ rb.length + c2) := by
  have hl : (rb ++ inp.take c).length = rb.length + c := by
    rw [List.length_append, List.length_take, Nat.min_eq_left hc]
  refine ⟨c + min (inp.length - c) (d - (rb.length + c)), ?_, ?_, ?_, ?_⟩
  · simp only [fill_buffer_to, hl, List.append_assoc]
    rw [List.take_add]
  · omega
  · intro h; omega
  · intro h; omega

theorem header_length_of_buffered (rb inp : List byte) (c : Nat)
    (h : TLS_HEADER_SIZE ≤ (rb ++ inp.take c).length) :
    header_length (rb ++ inp.take c) = header_length (rb ++ inp) := by
  have := header_length_append (rb ++ inp.take c) (inp.drop c) h
  rw [List.append_assoc, List.take_append_drop] at this
  exact this.symm

theorem getD_of_buffered (rb inp : List byte) (c i : Nat) (h : i < (rb ++ inp.take c).length) :
    (rb ++ inp.take c).getD i 0 = (rb ++ inp).getD i 0 := by
  have := List.getD_append (rb ++ inp.take c) (inp.drop c) 0 i h
  rw [List.append_assoc, List.take_append_drop] at this
  exact this.symm

theorem body_of_buffered (rb inp : List byte) (c n : Nat)
    (h : TLS_HEADER_SIZE + n ≤ (rb ++ inp.take c).length) :
    ((rb ++ inp.take c).drop TLS_HEADER_SIZE).take n =
      ((rb ++ inp).drop TLS_HEADER_SIZE).take n := by
  have h5 : TLS_HEADER_SIZE ≤ (rb ++ inp.take c).length := by omega
  have hsplit : rb ++ inp = (rb ++ inp.take c) ++ inp.drop c := by
    rw [List.append_assoc, List.take_append_drop]
  rw [hsplit, List.drop_append_of_le_length h5,
    List.take_append_of_le_length (by rw [List.length_drop]; omega)]

/-- With a complete header available, `read_record` is decided by the declared
length and the bytes available. -/
theorem read_record_header_complete (pc : Protocol_Constants) (rb inp : List byte)
    (seqs : Option Connection_Sequence_Numbers)
    (gcs : Nat → Option Connection_Cipher_State)
    (h5 : TLS_HEADER_SIZE ≤ rb.length + inp.length) :
    ∃ consumed, read_record pc rb inp seqs gcs =
      if header_length (rb ++ inp) > pc.max_ciphertext_size then .error .RecordOverflow
      else if rb.length + inp.length < TLS_HEADER_SIZE + header_length (rb ++ inp) then
        .ok (need_more pc (rb ++ inp) inp.length seqs
          (TLS_HEADER_SIZE + header_length (rb ++ inp) - (rb.length + inp.length)))
      else
        match gcs (reader_epoch seqs) with
        | none =>
          .ok { read_buffer := [], input_consumed := consumed,
                output_record :=
                  Record.create (reader_sequence seqs)
                    ⟨(rb ++ inp).getD 1 0, (rb ++ inp).getD 2 0⟩
                    (pc.record_type_of ((rb ++ inp).getD 0 0))
                    (((rb ++ inp).drop TLS_HEADER_SIZE).take (header_length (rb ++ inp)))
                    (((rb ++ inp).drop TLS_HEADER_SIZE).take (header_length (rb ++ inp))).length,
                sequence_numbers := reader_advance seqs, cipherstate := none,
                bytes_needed := 0 }
        | some cs =>
          match decrypt_record cs (reader_sequence seqs) ((rb ++ inp).getD 0 0)
              ⟨(rb ++ inp).getD 1 0, (rb ++ inp).getD 2 0⟩
              (((rb ++ inp).drop TLS_HEADER_SIZE).take (header_length (rb ++ inp))) with
          | .error e => .error e
          | .ok (content, cs_after) =>
            .ok { read_buffer := [], input_consumed := consumed,
                  output_record :=
                    Record.create (reader_sequence seqs)
                      ⟨(rb ++ inp).getD 1 0, (rb ++ inp).getD 2 0⟩
                      (pc.record_type_of ((rb ++ inp).getD 0 0)) content content.length,
                  sequence_numbers := reader_advance seqs, cipherstate := some cs_after,
                  bytes_needed := 0 } := by
  obtain ⟨c, hc, hcle, hc5⟩ := fill_header_avail rb inp h5
  have hl1 : (rb ++ inp.take c).length = rb.length + c := by
    rw [List.length_append, List.length_take, Nat.min_eq_left hcle]
  have hL : header_length (rb ++ inp.take c) = header_length (rb ++ inp) :=
    header_length_of_buffered rb inp c (by omega)
  obtain ⟨c2, hc2, hc2le, hshort, hfull⟩ :=
    fill_body_avail rb inp c (TLS_HEADER_SIZE + header_length (rb ++ inp)) hcle
  have hl2 : (rb ++ inp.take c2).length = rb.length + c2 := by
    rw [List.length_append, List.length_take, Nat.min_eq_left hc2le]
  refine ⟨c2, ?_⟩
  unfold read_record
  simp only [hc, hL, hc2]
  rw [if_neg (by omega)]
  by_cases hov : header_length (rb ++ inp) > pc.max_ciphertext_size
  · rw [if_pos hov, if_pos hov]
  · rw [if_neg hov, if_neg hov]
    by_cases hs : rb.length + inp.length < TLS_HEADER_SIZE + header_length (rb ++ inp)
    · have hce := hshort hs
      rw [if_pos hs, if_pos (by omega), hce, List.take_length, List.length_append]
    · have hge := hfull (Nat.le_of_not_lt hs)
      rw [if_neg hs, if_neg (by omega)]
      rw [getD_of_buffered rb inp c2 0 (by unfold TLS_HEADER_SIZE at hge; omega),
        getD_of_buffered rb inp c2 1 (by unfold TLS_HEADER_SIZE at hge; omega),
        getD_of_buffered rb inp c2 2 (by unfold TLS_HEADER_SIZE at hge; omega),
        body_of_buffered rb inp c2 _ (by omega)]

/-! ## Bytes, CBC chaining and the stream cipher -/

theorem to_byte_val (n : Nat) : (to_byte n).val = n % 256 := rfl

theorem to_byte_val_of_lt (n : Nat) (h : n < 256) : (to_byte n).val = n := by
  rw [to_byte_val, Nat.mod_eq_of_lt h]

theorem load_store_be16 (n : Nat) (h : n < 65536) :
    load_be16 (to_byte (n / 256)) (to_byte n) = n := by
  simp only [load_be16, to_byte_val]
  omega

theorem xor_byte_cancel (a b : byte) : xor_byte (xor_byte a b) b = a := by
  apply Fin.ext
  have hab : a.val ^^^ b.val < 256 :=
    Nat.xor_lt_two_pow (n := 8) a.isLt b.isLt
  simp only [xor_byte, to_byte_val, Nat.mod_eq_of_lt hab, Nat.xor_assoc, Nat.xor_self,
    Nat.xor_zero]
  exact Nat.mod_eq_of_lt a.isLt

theorem xor_buf_length (a m : List byte) : (xor_buf a m).length = min a.length m.length := by
  simp [xor_buf]

theorem xor_buf_cancel : ∀ (a m : List byte), a.length ≤ m.length →
    xor_buf (xor_buf a m) m = a
  | [], _, _ => by simp [xor_buf]
  | x :: a, [], h => by simp at h
  | x :: a, y :: m, h => by
    have ih := xor_buf_cancel a m (by simpa using h)
    simp only [xor_buf] at ih ⊢
    simp [List.zipWith, xor_byte_cancel, ih]

theorem cbc_encrypt_length (bc : BlockCipher) (bs : Nat) (hbc : block_contract bc bs) :
    ∀ (n : Nat) (state buf : List byte), buf.length = n * bs → bs ≤ state.length →
      (cbc_encrypt bc bs n state buf).1.length = n * bs
  | 0, _, _, _, _ => by simp [cbc_encrypt]
  | n + 1, state, buf, hlen, hst => by
    have hx : (xor_buf (buf.take bs) state).length = bs := by
      rw [xor_buf_length, List.length_take, hlen, Nat.succ_mul]; omega
    have hc := (hbc _ hx).1
    have ih := cbc_encrypt_length bc bs hbc n (bc.encrypt (xor_buf (buf.take bs) state))
      (buf.drop bs) (by rw [List.length_drop, hlen, Nat.succ_mul]; omega) (by omega)
    simp only [cbc_encrypt, List.length_append, ih, hc, Nat.succ_mul]
    omega

theorem cbc_decrypt_encrypt (bc : BlockCipher) (bs : Nat) (hbc : block_contract bc bs) :
    ∀ (n : Nat) (state buf : List byte), buf.length = n * bs → bs ≤ state.length →
      (cbc_decrypt bc bs n state (cbc_encrypt bc bs n state buf).1).1 = buf
  | 0, _, buf, hlen, _ => by
    have : buf = [] := List.length_eq_zero.mp (by simpa using hlen)
    simp [cbc_encrypt, cbc_decrypt, this]
  | n + 1, state, buf, hlen, hst => by
    have hx : (xor_buf (buf.take bs) state).length = bs := by
      rw [xor_buf_length, List.length_take, hlen, Nat.succ_mul]; omega
    have hc := hbc _ hx
    have ih := cbc_decrypt_encrypt bc bs hbc n (bc.encrypt (xor_buf (buf.take bs) state))
      (buf.drop bs) (by rw [List.length_drop, hlen, Nat.succ_mul]; omega) (by omega)
    have htk : (buf.take bs).length ≤ state.length := by
      rw [List.length_take]; omega
    simp only [cbc_encrypt, cbc_decrypt]
    rw [List.take_left' hc.1, List.drop_left' hc.1, hc.2, xor_buf_cancel _ _ htk, ih,
      List.take_append_drop]

theorem cipher1_cancel (sc : StreamCipher) (buf : List byte) :
    (sc.cipher1 (sc.cipher1 buf).1).1 = buf := by
  simp only [StreamCipher.cipher1, xor_buf_length, List.length_map, List.length_range,
    Nat.min_self]
  exact xor_buf_cancel _ _ (by simp)

theorem cipher1_length (sc : StreamCipher) (buf : List byte) :
    (sc.cipher1 buf).1.length = buf.length := by
  simp [StreamCipher.cipher1, xor_buf_length]

/-! ## Padding -/

theorem pad_length_bounds (bs len : Nat) (hbs : 0 < bs) :
    1 ≤ pad_length bs len ∧ pad_length bs len ≤ bs := by
  have := Nat.mod_lt len hbs
  unfold pad_length
  omega

theorem padded_length (bs len : Nat) (hbs : 0 < bs) :
    len + pad_length bs len = (len / bs + 1) * bs := by
  have h1 := Nat.div_add_mod len bs
  have h2 := Nat.mod_lt len hbs
  rw [Nat.mul_comm] at h1
  unfold pad_length
  rw [Nat.succ_mul]
  omega

theorem cbc_padding_length (cs : Connection_Cipher_State) (len : Nat)
    (hbs : 0 < cs.block_size) :
    (cbc_padding cs len).length = pad_length cs.block_size len := by
  have hb := pad_length_bounds cs.block_size len hbs
  unfold cbc_padding
  simp only
  split
  · simp only [List.length_append, List.length_replicate, List.length_singleton]
    omega
  · simp

theorem cbc_padding_getLast (cs : Connection_Cipher_State) (len : Nat)
    (hbs : 0 < cs.block_size) (plain : List byte) :
    (plain ++ cbc_padding cs len).getLast? =
      some (to_byte (pad_length cs.block_size len - 1)) := by
  have hb := pad_length_bounds cs.block_size len hbs
  unfold cbc_padding
  simp only
  split
  · rw [← List.append_assoc, List.getLast?_append]
    simp
  · obtain ⟨k, hk⟩ : ∃ k, pad_length cs.block_size len = k + 1 := ⟨_, (Nat.sub_add_cancel hb.1).symm⟩
    rw [hk, List.replicate_succ', ← List.append_assoc, List.getLast?_append]
    simp

theorem check_padding_padded (cs : Connection_Cipher_State) (plain : List byte)
    (hbs : 0 < cs.block_size) (h256 : cs.block_size ≤ 256) :
    check_padding cs (plain ++ cbc_padding cs plain.length) =
      some (pad_length cs.block_size plain.length) := by
  have hb := pad_length_bounds cs.block_size plain.length hbs
  have hl := cbc_padding_length cs plain.length hbs
  have hv : (to_byte (pad_length cs.block_size plain.length - 1)).val + 1 =
      pad_length cs.block_size plain.length := by
    rw [to_byte_val_of_lt _ (by omega)]; omega
  unfold check_padding
  rw [cbc_padding_getLast cs plain.length hbs plain]
  simp only [hv, List.length_append, hl]
  rw [if_neg (by omega)]
  split
  · rfl
  · rename_i hssl
    rw [if_pos]
    rw [Nat.add_sub_cancel, List.drop_left]
    unfold cbc_padding
    simp [hssl]

/-! ## Decryption of what the writer encrypted -/

theorem verify_and_strip_ok (cs : Connection_Cipher_State) (mac : MessageAuthenticationCode)
    (hmaclen : ∀ x, (mac.compute x).length = mac.output_length)
    (seq : Nat) (t : byte) (V : Protocol_Version) (msg pad : List byte) (pl : Option Nat)
    (hpad : pad.length = pl.getD 0) :
    verify_and_strip cs mac seq t V
      (msg ++ mac.compute (mac_input cs seq t V msg) ++ pad) pl = .ok msg := by
  have hm := hmaclen (mac_input cs seq t V msg)
  have hcl : (msg ++ mac.compute (mac_input cs seq t V msg) ++ pad).length
      - pl.getD 0 - mac.output_length = msg.length := by
    simp only [List.length_append, hm, hpad]; omega
  unfold verify_and_strip
  simp only [hcl]
  rw [List.append_assoc, List.take_left, List.drop_left, ← hm, List.take_left]
  simp only [List.length_append, hpad, hm]
  simp
  omega

theorem randomize_length (rng : RandomNumberGenerator) (n : Nat) :
    (rng.randomize n).1.length = n := by
  simp [RandomNumberGenerator.randomize]

theorem decrypt_block (cs : Connection_Cipher_State) (mac : MessageAuthenticationCode)
    (bc : BlockCipher) (hmac : cs.m_mac = some mac)
    (hmaclen : ∀ x, (mac.compute x).length = mac.output_length)
    (hbc : cs.m_block_cipher = some bc) (hsc : cs.m_stream_cipher = none)
    (hbs : 0 < cs.block_size) (h256 : cs.block_size ≤ 256)
    (hcontract : block_contract bc cs.block_size)
    (seq : Nat) (t : byte) (V : Protocol_Version) (P iv : List byte)
    (hivlen : cs.block_size ≤ iv.length)
    (hiv : if cs.cbc_without_explicit_iv = true then iv = cs.cbc_state
           else iv.length = cs.iv_size ∧ cs.iv_size % cs.block_size = 0) :
    let X := P ++ mac.compute (mac_input cs seq t V P)
    let padded := X ++ cbc_padding cs X.length
    let ct := (cbc_encrypt bc cs.block_size (padded.length / cs.block_size) iv padded).1
    ct.length ≤ P.length + mac.output_length + cs.block_size ∧
    ∃ cs_after, decrypt_record cs seq t V
      ((if cs.cbc_without_explicit_iv = true then [] else iv) ++ ct) = .ok (P, cs_after) := by
  intro X padded ct
  have hpl := padded_length cs.block_size X.length hbs
  have hpb := pad_length_bounds cs.block_size X.length hbs
  have hXlen : X.length = P.length + mac.output_length := by
    simp only [X, List.length_append, hmaclen]
  have hpadded : padded.length = (X.length / cs.block_size + 1) * cs.block_size := by
    simp only [padded, List.length_append, cbc_padding_length cs X.length hbs]
    exact hpl
  have hblocks : padded.length / cs.block_size = X.length / cs.block_size + 1 := by
    rw [hpadded, Nat.mul_div_cancel _ hbs]
  have hctlen : ct.length = (X.length / cs.block_size + 1) * cs.block_size := by
    simp only [ct, hblocks]
    exact cbc_encrypt_length bc cs.block_size hcontract _ iv padded hpadded hivlen
  have hdec : (cbc_decrypt bc cs.block_size (ct.length / cs.block_size) iv ct).1 = padded := by
    rw [hctlen, Nat.mul_div_cancel _ hbs]
    simp only [ct, hblocks]
    exact cbc_decrypt_encrypt bc cs.block_size hcontract _ iv padded hpadded hivlen
  refine ⟨by rw [hctlen, ← hpl]; omega, ?_⟩
  have hchk : check_padding cs padded = some (pad_length cs.block_size X.length) :=
    check_padding_padded cs X hbs h256
  have hver : verify_and_strip cs mac seq t V padded
      (some (pad_length cs.block_size X.length)) = .ok P :=
    verify_and_strip_ok cs mac hmaclen seq t V P (cbc_padding cs X.length)
      (some (pad_length cs.block_size X.length)) (cbc_padding_length cs X.length hbs)
  have hctmod : ct.length % cs.block_size = 0 := by
    rw [hctlen]; exact Nat.mul_mod_left _ _
  have hctge : cs.block_size ≤ ct.length := by
    rw [hctlen, Nat.succ_mul]; omega
  by_cases hflag : cs.cbc_without_explicit_iv = true
  · rw [if_pos hflag] at hiv
    rw [if_pos hflag, List.nil_append]
    unfold decrypt_record
    simp only [Connection_Cipher_State.mac, Connection_Cipher_State.block_cipher,
      Connection_Cipher_State.stream_cipher, hmac, hbc, hsc]
    rw [if_neg (by omega)]
    simp only [hflag, if_true, ← hiv, hdec, hchk, hver]
    exact ⟨_, rfl⟩
  · rw [if_neg hflag] at hiv
    rw [if_neg hflag]
    unfold decrypt_record
    simp only [Connection_Cipher_State.mac, Connection_Cipher_State.block_cipher,
      Connection_Cipher_State.stream_cipher, hmac, hbc, hsc]
    have hbody : (iv ++ ct).length % cs.block_size = 0 := by
      rw [List.length_append, hiv.1, Nat.add_mod, hiv.2, hctmod]; simp
    rw [if_neg (by rw [List.length_append] at hbody ⊢; omega)]
    simp only [hflag, Bool.false_eq_true, if_false, ← hiv.1, List.take_left, List.drop_left,
      hdec, hchk, hver]
    exact ⟨_, rfl⟩

theorem decrypt_stream (cs : Connection_Cipher_State) (mac : MessageAuthenticationCode)
    (sc : StreamCipher) (hmac : cs.m_mac = some mac)
    (hmaclen : ∀ x, (mac.compute x).length = mac.output_length)
    (hbc : cs.m_block_cipher = none) (hsc : cs.m_stream_cipher = some sc)
    (seq : Nat) (t : byte) (V : Protocol_Version) (P iv : List byte)
    (hiv : iv.length = cs.iv_size) :
    let X := P ++ mac.compute (mac_input cs seq t V P)
    let ct := (sc.cipher1 X).1
    ct.length = P.length + mac.output_length ∧
    ∃ cs_after, decrypt_record cs seq t V
      ((if cs.cbc_without_explicit_iv = true then [] else iv) ++ ct) = .ok (P, cs_after) := by
  intro X ct
  have hXlen : X.length = P.length + mac.output_length := by
    simp only [X, List.length_append, hmaclen]
  refine ⟨by simp only [ct, cipher1_length, hXlen], ?_⟩
  have hver : verify_and_strip cs mac seq t V X none = .ok P := by
    have := verify_and_strip_ok cs mac hmaclen seq t V P [] none rfl
    simpa using this
  have hdec : (sc.cipher1 ct).1 = X := cipher1_cancel sc X
  unfold decrypt_record
  simp only [Connection_Cipher_State.mac, Connection_Cipher_State.block_cipher,
    Connection_Cipher_State.stream_cipher, hmac, hbc, hsc]
  by_cases hflag : cs.cbc_without_explicit_iv = true
  · simp only [hflag, if_true, List.nil_append, hdec, hver]
    exact ⟨_, rfl⟩
  · simp only [hflag, Bool.false_eq_true, if_false, ← hiv, List.drop_left, hdec, hver]
    exact ⟨_, rfl⟩

/-! ## Reading a complete frame -/

theorem record_header_length (t : byte) (V : Protocol_Version) (n : Nat) :
    (record_header t V n).length = 5 := rfl

theorem header_length_record_header (t : byte) (V : Protocol_Version) (n : Nat)
    (h : n < 65536) : header_length (record_header t V n) = n := by
  simp only [header_length, record_header, store_be16, List.cons_append, List.nil_append,
    List.getD_cons_succ, List.getD_cons_zero]
  exact load_store_be16 n h

theorem fill_header (t : byte) (V : Protocol_Version) (n : Nat) (body : List byte) :
    fill_buffer_to [] (record_header t V n ++ body) 0 TLS_HEADER_SIZE =
      (record_header t V n, 5) := by
  simp only [fill_buffer_to, TLS_HEADER_SIZE, List.length_append, record_header_length,
    List.length_nil, Nat.sub_zero, List.drop_zero, List.nil_append, Nat.zero_add]
  rw [Nat.min_eq_right (by omega), List.take_left' (record_header_length t V n)]

theorem fill_body (t : byte) (V : Protocol_Version) (n : Nat) (body : List byte) :
    fill_buffer_to (record_header t V n) (record_header t V n ++ body) 5
        (TLS_HEADER_SIZE + body.length) =
      (record_header t V n ++ body, 5 + body.length) := by
  simp only [fill_buffer_to, TLS_HEADER_SIZE, List.length_append, record_header_length]
  rw [List.drop_left' (record_header_length t V n)]
  have h1 : 5 + body.length - 5 = body.length := by omega
  rw [h1, Nat.min_self, List.take_length]

theorem read_record_frame (pc : Protocol_Constants) (t : byte) (V : Protocol_Version)
    (body : List byte) (rs : Option Connection_Sequence_Numbers)
    (gcs : Nat → Option Connection_Cipher_State)
    (hmax : body.length ≤ pc.max_ciphertext_size) (h16 : body.length < 65536) :
    read_record pc [] (record_header t V body.length ++ body) rs gcs =
      match gcs (reader_epoch rs) with
      | none =>
        .ok { read_buffer := [], input_consumed := 5 + body.length,
              output_record :=
                Record.create (reader_sequence rs) V (pc.record_type_of t) body body.length,
              sequence_numbers := reader_advance rs, cipherstate := none, bytes_needed := 0 }
      | some cs =>
        match decrypt_record cs (reader_sequence rs) t V body with
        | .error e => .error e
        | .ok (content, cs_after) =>
          .ok { read_buffer := [], input_consumed := 5 + body.length,
                output_record :=
                  Record.create (reader_sequence rs) V (pc.record_type_of t)
                    content content.length,
                sequence_numbers := reader_advance rs, cipherstate := some cs_after,
                bytes_needed := 0 } := by
  have hV : (⟨V.major_version, V.minor_version⟩ : Protocol_Version) = V := rfl
  unfold read_record
  simp only [fill_header, record_header_length, header_length_record_header t V _ h16]
  rw [if_neg (by simp [TLS_HEADER_SIZE]), if_neg (by omega)]
  simp only [fill_body, List.length_append, record_header_length]
  rw [if_neg (by simp [TLS_HEADER_SIZE])]
  have hb : List.take body.length (List.drop TLS_HEADER_SIZE (record_header t V body.length ++ body))
      = body := by
    show List.take body.length (List.drop 5 (record_header t V body.length ++ body)) = body
    rw [List.drop_left' (record_header_length t V _), List.take_length]
  have h0 : (record_header t V body.length ++ body).getD 0 0 = t := rfl
  have h1 : (record_header t V body.length ++ body).getD 1 0 = V.major_version := rfl
  have h2 : (record_header t V body.length ++ body).getD 2 0 = V.minor_version := rfl
  simp only [hb, h0, h1, h2, hV]

/-- Reading a complete frame whose body decodes to `P` yields the record of `P`. -/
theorem read_frame_result (pc : Protocol_Constants) (msg_type : byte) (t : Record_Type)
    (V : Protocol_Version) (P body : List byte) (rs : Option Connection_Sequence_Numbers)
    (gcs : Nat → Option Connection_Cipher_State) (C : Option Connection_Cipher_State)
    (htype : pc.record_type_of msg_type = t) (hvalid : t ≠ NO_RECORD)
    (hcs : gcs (reader_epoch rs) = C)
    (hmax : body.length ≤ pc.max_ciphertext_size) (h16 : body.length < 65536)
    (hplain : C = none → body = P)
    (hdec : ∀ cs, C = some cs →
      ∃ cs_after, decrypt_record cs (reader_sequence rs) msg_type V body = .ok (P, cs_after)) :
    ∃ r, read_record pc [] (record_header msg_type V body.length ++ body) rs gcs = .ok r ∧
      r.bytes_needed = 0 ∧
      r.output_record.is_valid = true ∧
      r.output_record.contents = P ∧
      r.output_record.version = V ∧
      r.output_record.type = t := by
  have hne : (t != NO_RECORD) = true := by simpa using hvalid
  rw [read_record_frame pc msg_type V body rs gcs hmax h16, hcs]
  cases C with
  | none =>
    have hb := hplain rfl
    subst hb
    refine ⟨_, rfl, rfl, ?_, ?_, rfl, ?_⟩
    · simp only [Record.is_valid, Record.create, htype, hne]
    · simp [Record.contents, Record.create]
    · simp only [Record.type, Record.create, htype]
  | some cs =>
    obtain ⟨cs_after, hd⟩ := hdec cs rfl
    simp only [hd]
    refine ⟨_, rfl, rfl, ?_, ?_, rfl, ?_⟩
    · simp only [Record.is_valid, Record.create, htype, hne]
    · simp [Record.contents, Record.create]
    · simp only [Record.type, Record.create, htype]

/-! ## What the writer appends -/

theorem next_write_sequence_fst (ws : Connection_Sequence_Numbers) (epoch : Nat) :
    (ws.next_write_sequence epoch).1 = ws.write_seq_no epoch := rfl

theorem write_record_plain (wb : List byte) (msg_type : byte) (P : List byte)
    (V : Protocol_Version) (ws : Connection_Sequence_Numbers) (rng : RandomNumberGenerator)
    (hlen : P.length ≤ MAX_PLAINTEXT_SIZE) :
    ∃ w, write_record wb msg_type P V ws none rng = .ok w ∧
      w.write_buffer = wb ++ (record_header msg_type V P.length ++ P) := by
  have hnot : ¬ P.length > MAX_PLAINTEXT_SIZE := Nat.not_lt.mpr hlen
  exact ⟨_, by unfold write_record; simp only [if_neg hnot]; rfl,
    by simp only [List.append_assoc]⟩

theorem write_record_encrypted (wb : List byte) (msg_type : byte) (P : List byte)
    (V : Protocol_Version) (ws : Connection_Sequence_Numbers)
    (cs : Connection_Cipher_State) (rng : RandomNumberGenerator)
    (hlen : P.length ≤ MAX_PLAINTEXT_SIZE) (hwf : cs.well_formed) :
    ∃ w body, write_record wb msg_type P V ws (some cs) rng = .ok w ∧
      w.write_buffer = wb ++ (record_header msg_type V body.length ++ body) ∧
      body.length ≤ P.length + record_overhead (some cs) ∧
      ∃ cs_after, decrypt_record cs (ws.write_seq_no ws.write_epoch) msg_type V body
        = .ok (P, cs_after) := by
  have hnot : ¬ P.length > MAX_PLAINTEXT_SIZE := Nat.not_lt.mpr hlen
  obtain ⟨⟨mac, hmac, hmaclen⟩, hcipher⟩ := hwf
  have hov : record_overhead (some cs) = cs.iv_size + mac.output_length + cs.block_size := by
    simp [record_overhead, Connection_Cipher_State.mac_size, hmac]
  rcases hcipher with ⟨bc, hbc, hsc, hbs, h256, hivmod, hst, hcontract⟩ | ⟨sc, hsc, hbc⟩
  · by_cases hflag : cs.cbc_without_explicit_iv = true
    · have hiv0 : cs.m_iv_size = 0 := by
        simp [Connection_Cipher_State.cbc_without_explicit_iv] at hflag
        exact hflag.2
      obtain ⟨hl, cs_after, hd⟩ := decrypt_block cs mac bc hmac hmaclen hbc hsc hbs h256
        hcontract (ws.write_seq_no ws.write_epoch) msg_type V P cs.cbc_state (hst hiv0)
        (by rw [if_pos hflag])
      rw [if_pos hflag, List.nil_append] at hd
      exact ⟨_, _, by
          unfold write_record
          simp only [if_neg hnot, Connection_Cipher_State.mac,
            Connection_Cipher_State.block_cipher, Connection_Cipher_State.stream_cipher,
            hmac, hbc, hsc, hflag, if_true]
          rfl,
        by simp only [List.append_assoc, next_write_sequence_fst], by rw [hov]; omega,
        cs_after, hd⟩
    · have hivlen := randomize_length rng cs.iv_size
      have hivne : cs.m_iv_size ≠ 0 := by
        intro h0
        apply hflag
        simp [Connection_Cipher_State.cbc_without_explicit_iv, h0, hbs]
      have hivge : cs.block_size ≤ (rng.randomize cs.iv_size).1.length := by
        rw [hivlen]
        by_contra hlt
        exact hivne (by
          have := Nat.mod_eq_of_lt (Nat.not_le.mp hlt)
          exact this.symm.trans hivmod)
      obtain ⟨hl, cs_after, hd⟩ := decrypt_block cs mac bc hmac hmaclen hbc hsc hbs h256
        hcontract (ws.write_seq_no ws.write_epoch) msg_type V P (rng.randomize cs.iv_size).1
        hivge (by rw [if_neg hflag]; exact ⟨hivlen, hivmod⟩)
      rw [if_neg hflag] at hd
      exact ⟨_, _, by
          unfold write_record
          simp only [if_neg hnot, Connection_Cipher_State.mac,
            Connection_Cipher_State.block_cipher, Connection_Cipher_State.stream_cipher,
            hmac, hbc, hsc, hflag, Bool.false_eq_true, if_false]
          rfl,
        by simp only [List.append_assoc, List.length_append, next_write_sequence_fst],
        by rw [hov, List.length_append, hivlen]; omega, cs_after, hd⟩
  · by_cases hflag : cs.cbc_without_explicit_iv = true
    · obtain ⟨hl, cs_after, hd⟩ := decrypt_stream cs mac sc hmac hmaclen hbc hsc
        (ws.write_seq_no ws.write_epoch) msg_type V P (rng.randomize cs.iv_size).1
        (randomize_length rng cs.iv_size)
      rw [if_pos hflag, List.nil_append] at hd
      exact ⟨_, _, by
          unfold write_record
          simp only [if_neg hnot, Connection_Cipher_State.mac,
            Connection_Cipher_State.block_cipher, Connection_Cipher_State.stream_cipher,
            hmac, hbc, hsc, hflag, if_true]
          rfl,
        by simp only [List.append_assoc, next_write_sequence_fst], by rw [hov]; omega,
        cs_after, hd⟩
    · have hivlen := randomize_length rng cs.iv_size
      obtain ⟨hl, cs_after, hd⟩ := decrypt_stream cs mac sc hmac hmaclen hbc hsc
        (ws.write_seq_no ws.write_epoch) msg_type V P (rng.randomize cs.iv_size).1 hivlen
      rw [if_neg hflag] at hd
      exact ⟨_, _, by
          unfold write_record
          simp only [if_neg hnot, Connection_Cipher_State.mac,
            Connection_Cipher_State.block_cipher, Connection_Cipher_State.stream_cipher,
            hmac, hbc, hsc, hflag, Bool.false_eq_true, if_false]
          rfl,
        by simp only [List.append_assoc, List.length_append, next_write_sequence_fst],
        by rw [hov, List.length_append, hivlen]; omega, cs_after, hd⟩

/-- The example cipher state satisfies the invariant and the primitive contracts. -/
theorem example_cipher_state_well_formed : example_cipher_state.well_formed :=
  ⟨⟨example_mac, rfl, fun _ => rfl⟩,
   Or.inl ⟨example_block_cipher, rfl, rfl, by decide, by decide, rfl,
     fun h => absurd h (by decide),
     fun b hb => ⟨by simp [example_block_cipher, hb], by simp [example_block_cipher]⟩⟩⟩

/-! ## Properties of `Record` -/

/-- C1: for every record, `is_valid()` is true if and only if `type()` is not
`NO_RECORD`, whatever the sequence number, version and contents. -/
theorem Record.is_valid_iff_type_ne_NO_RECORD (r : Record) :
    r.is_valid = true ↔ r.type ≠ NO_RECORD := by
  simp [Record.is_valid, Record.type]

/-- C2: the record built from a sequence number, a version, a type and a byte
array of length `n` returns exactly what it was given: the accessors yield the
sequence number, the version, the type, the `n` bytes in order, and `n`. -/
theorem Record.create_returns_arguments (s : Nat) (v : Protocol_Version) (t : Record_Type)
    (c : List byte) (n : Nat) (hn : c.length = n) :
    (Record.create s v t c n).sequence = s ∧
    (Record.create s v t c n).version = v ∧
    (Record.create s v t c n).type = t ∧
    (Record.create s v t c n).contents = c ∧
    (Record.create s v t c n).size = n := by
  subst hn
  simp [Record.create, Record.sequence, Record.version, Record.type, Record.contents,
    Record.size]

/-- Witness of C2: a handshake record of three bytes. -/
theorem Record.create_returns_arguments_witness :
    (Record.create 7 ⟨3, 1⟩ HANDSHAKE [1, 2, 3] 3).sequence = 7 ∧
    (Record.create 7 ⟨3, 1⟩ HANDSHAKE [1, 2, 3] 3).version = ⟨3, 1⟩ ∧
    (Record.create 7 ⟨3, 1⟩ HANDSHAKE [1, 2, 3] 3).type = HANDSHAKE ∧
    (Record.create 7 ⟨3, 1⟩ HANDSHAKE [1, 2, 3] 3).contents = [1, 2, 3] ∧
    (Record.create 7 ⟨3, 1⟩ HANDSHAKE [1, 2, 3] 3).size = 3 :=
  Record.create_returns_arguments 7 ⟨3, 1⟩ HANDSHAKE [1, 2, 3] 3 (by decide)

/-- C8: the default-constructed record is the invalid sentinel: its type is
`NO_RECORD`, it is not valid, its sequence number is 0, its contents are empty
and its size is 0. -/
theorem Record.default_is_invalid_sentinel (v : Protocol_Version) :
    (Record.default v).type = NO_RECORD ∧
    (Record.default v).is_valid = false ∧
    (Record.default v).sequence = 0 ∧
    (Record.default v).contents = [] ∧
    (Record.default v).size = 0 := by
  simp [Record.default, Record.type, Record.is_valid, Record.sequence, Record.contents,
    Record.size]

/-- C9: `bits()` indexes the contents at position 0, and that index is in range
if and only if `size() > 0`: with non-empty contents `bits()` designates the
first content byte; with empty contents (the default record, or a record built
with `contents_size = 0`) the index is out of range. -/
theorem Record.bits_in_range_iff (r : Record) (v : Protocol_Version) (s : Nat)
    (t : Record_Type) (c : List byte) :
    Record.bits_index = 0 ∧
    (Record.bits_index < r.size ↔ r.size > 0) ∧
    (r.bits.isSome = true ↔ r.size > 0) ∧
    (∀ b rest, r.contents = b :: rest → r.bits = some b) ∧
    (r.contents = [] → r.bits = none) ∧
    (Record.default v).bits = none ∧
    (Record.create s v t c 0).bits = none := by
  refine ⟨rfl, by simp [Record.bits_index], ?_, ?_, ?_, rfl, ?_⟩
  · cases r with
    | mk sq vr ty ct => cases ct <;> simp [Record.bits, Record.size, Record.bits_index]
  · intro b rest h
    simp only [Record.contents] at h
    simp [Record.bits, Record.bits_index, h]
  · intro h
    simp only [Record.contents] at h
    simp [Record.bits, h]
  · simp [Record.bits, Record.create]

/-- Witness of C9: the first byte of a two-byte record, and an empty record. -/
theorem Record.bits_in_range_iff_witness :
    (Record.create 0 ⟨3, 3⟩ ALERT [2, 40] 2).bits = some 2 ∧
    (Record.create 0 ⟨3, 3⟩ ALERT [2, 40] 0).bits = none :=
  ⟨(Record.bits_in_range_iff (Record.create 0 ⟨3, 3⟩ ALERT [2, 40] 2) ⟨3, 3⟩ 0 ALERT
      [2, 40]).2.2.2.1 2 [40] rfl,
   (Record.bits_in_range_iff (Record.create 0 ⟨3, 3⟩ ALERT [2, 40] 2) ⟨3, 3⟩ 0 ALERT
      [2, 40]).2.2.2.2.2.2⟩

/-! ## Properties of `Connection_Cipher_State` -/

/-- C3: `cbc_without_explicit_iv()` is true if and only if the state is a
block-cipher state that carries no per-record IV: `block_size() > 0` and
`iv_size() = 0`. -/
theorem Connection_Cipher_State.cbc_without_explicit_iv_iff (cs : Connection_Cipher_State) :
    cs.cbc_without_explicit_iv = true ↔ cs.block_size > 0 ∧ cs.iv_size = 0 := by
  simp [Connection_Cipher_State.cbc_without_explicit_iv, Connection_Cipher_State.block_size,
    Connection_Cipher_State.iv_size]

/-- C4: both SSLv3 framing differences are driven by the one flag `m_is_ssl3`:
`cipher_padding_single_byte()` is true exactly when the state is SSLv3,
`mac_includes_record_version()` exactly when it is not, so the second is the
negation of the first and exactly one of the two holds. -/
theorem Connection_Cipher_State.ssl3_flags (cs : Connection_Cipher_State) :
    (cs.cipher_padding_single_byte = true ↔ cs.m_is_ssl3 = true) ∧
    (cs.mac_includes_record_version = true ↔ cs.m_is_ssl3 = false) ∧
    cs.mac_includes_record_version = !cs.cipher_padding_single_byte ∧
    ((cs.cipher_padding_single_byte = true ∧ cs.mac_includes_record_version = false) ∨
     (cs.cipher_padding_single_byte = false ∧ cs.mac_includes_record_version = true)) := by
  cases h : cs.m_is_ssl3 <;>
    simp [Connection_Cipher_State.cipher_padding_single_byte,
      Connection_Cipher_State.mac_includes_record_version, h]

/-- C7: for a cipher state whose MAC is present, `mac_size()` is defined (the
handle it dereferences is non-null) and equals the output length of the MAC the
state owns. -/
theorem Connection_Cipher_State.mac_size_defined (cs : Connection_Cipher_State)
    (hmac : cs.m_mac ≠ none) :
    ∃ m, cs.mac = some m ∧ cs.mac_size = some m.output_length := by
  cases h : cs.m_mac with
  | none => exact absurd h hmac
  | some m => exact ⟨m, by simp [Connection_Cipher_State.mac, h],
      by simp [Connection_Cipher_State.mac_size, h]⟩

/-- C10: `cbc_without_explicit_iv()` and `iv_size() > 0` never hold together;
for a block-cipher state (`block_size() > 0`) exactly one of them holds; for a
stream-cipher state (`block_size() = 0`) `cbc_without_explicit_iv()` is false
whatever `iv_size()` is. -/
theorem Connection_Cipher_State.cbc_without_explicit_iv_excludes_iv
    (cs : Connection_Cipher_State) :
    ¬ (cs.cbc_without_explicit_iv = true ∧ cs.iv_size > 0) ∧
    (cs.block_size > 0 →
      ((cs.cbc_without_explicit_iv = true ∧ ¬ cs.iv_size > 0) ∨
       (cs.cbc_without_explicit_iv = false ∧ cs.iv_size > 0))) ∧
    (cs.block_size = 0 → cs.cbc_without_explicit_iv = false) := by
  simp only [Connection_Cipher_State.cbc_without_explicit_iv,
    Connection_Cipher_State.block_size, Connection_Cipher_State.iv_size]
  refine ⟨?_, ?_, ?_⟩
  · intro h
    simp at h
    omega
  · intro hb
    by_cases hiv : cs.m_iv_size = 0
    · left; simp [hb, hiv]
    · right; simp [hiv]; omega
  · intro hb
    simp [hb]

/-! ## Properties of the record reader and writer -/

/-- C6: `read_record` returns zero if a full message was decoded, else the
number of bytes still needed. With `buffered_len` the bytes buffered once the
input is absorbed (those of `read_buffer` and of `input`):
* every successful call returns 0 with an emptied buffer, or the shortfall of
  the header or of the body with `output_record` invalid;
* with fewer than 5 header bytes buffered it returns `5 - buffered_len`, a value
  between 1 and 5, keeps all the bytes and leaves `output_record` invalid;
* with the header complete and the body of the declared length incomplete it
  returns the shortfall `5 + length - buffered_len`, keeps all the bytes and
  leaves `output_record` invalid;
* with header and body complete it returns 0 and `output_record` is the record
  decoded from them: of the body itself without a cipher state, of what
  `decrypt_record` recovers with one; when decryption fails the call fails with
  the same error and returns nothing;
* a declared length beyond the maximum fails with `RecordOverflow`. -/
theorem read_record_bytes_needed (pc : Protocol_Constants) (read_buffer input : List byte)
    (sequence_numbers : Option Connection_Sequence_Numbers)
    (get_cipherstate : Nat → Option Connection_Cipher_State) :
    (∀ r, read_record pc read_buffer input sequence_numbers get_cipherstate = .ok r →
      (r.bytes_needed = 0 ∧ r.read_buffer = []) ∨
      (r.output_record.is_valid = false ∧ r.read_buffer.length < TLS_HEADER_SIZE ∧
        r.bytes_needed = TLS_HEADER_SIZE - r.read_buffer.length) ∨
      (r.output_record.is_valid = false ∧ TLS_HEADER_SIZE ≤ r.read_buffer.length ∧
        r.read_buffer.length < TLS_HEADER_SIZE + header_length r.read_buffer ∧
        r.bytes_needed = TLS_HEADER_SIZE + header_length r.read_buffer - r.read_buffer.length)) ∧
    (read_buffer.length + input.length < 5 →
      ∃ r, read_record pc read_buffer input sequence_numbers get_cipherstate = .ok r ∧
        r.read_buffer = read_buffer ++ input ∧
        r.input_consumed = input.length ∧
        r.bytes_needed = 5 - (read_buffer.length + input.length) ∧
        1 ≤ r.bytes_needed ∧ r.bytes_needed ≤ 5 ∧
        r.output_record.is_valid = false) ∧
    (5 ≤ read_buffer.length + input.length →
      header_length (read_buffer ++ input) ≤ pc.max_ciphertext_size →
      read_buffer.length + input.length < 5 + header_length (read_buffer ++ input) →
      ∃ r, read_record pc read_buffer input sequence_numbers get_cipherstate = .ok r ∧
        r.read_buffer = read_buffer ++ input ∧
        r.input_consumed = input.length ∧
        r.bytes_needed =
          5 + header_length (read_buffer ++ input) - (read_buffer.length + input.length) ∧
        1 ≤ r.bytes_needed ∧
        r.output_record.is_valid = false) ∧
    (5 ≤ read_buffer.length + input.length →
      header_length (read_buffer ++ input) ≤ pc.max_ciphertext_size →
      5 + header_length (read_buffer ++ input) ≤ read_buffer.length + input.length →
      (get_cipherstate (reader_epoch sequence_numbers) = none →
        ∃ r, read_record pc read_buffer input sequence_numbers get_cipherstate = .ok r ∧
          r.bytes_needed = 0 ∧
          r.output_record =
            Record.create (reader_sequence sequence_numbers)
              ⟨(read_buffer ++ input).getD 1 0, (read_buffer ++ input).getD 2 0⟩
              (pc.record_type_of ((read_buffer ++ input).getD 0 0))
              (((read_buffer ++ input).drop 5).take (header_length (read_buffer ++ input)))
              (header_length (read_buffer ++ input))) ∧
      (∀ cs content cs_after,
        get_cipherstate (reader_epoch sequence_numbers) = some cs →
        decrypt_record cs (reader_sequence sequence_numbers) ((read_buffer ++ input).getD 0 0)
          ⟨(read_buffer ++ input).getD 1 0, (read_buffer ++ input).getD 2 0⟩
          (((read_buffer ++ input).drop 5).take (header_length (read_buffer ++ input)))
          = .ok (content, cs_after) →
        ∃ r, read_record pc read_buffer input sequence_numbers get_cipherstate = .ok r ∧
          r.bytes_needed = 0 ∧
          r.output_record =
            Record.create (reader_sequence sequence_numbers)
              ⟨(read_buffer ++ input).getD 1 0, (read_buffer ++ input).getD 2 0⟩
              (pc.record_type_of ((read_buffer ++ input).getD 0 0))
              content content.length) ∧
      (∀ cs e,
        get_cipherstate (reader_epoch sequence_numbers) = some cs →
        decrypt_record cs (reader_sequence sequence_numbers) ((read_buffer ++ input).getD 0 0)
          ⟨(read_buffer ++ input).getD 1 0, (read_buffer ++ input).getD 2 0⟩
          (((read_buffer ++ input).drop 5).take (header_length (read_buffer ++ input)))
          = .error e →
        read_record pc read_buffer input sequence_numbers get_cipherstate = .error e)) ∧
    (5 ≤ read_buffer.length + input.length →
      pc.max_ciphertext_size < header_length (read_buffer ++ input) →
      read_record pc read_buffer input sequence_numbers get_cipherstate
        = .error .RecordOverflow) := by
  refine ⟨?_, ?_, ?_, ?_, ?_⟩
  · intro r hr
    unfold read_record at hr
    simp only at hr
    split at hr
    · rename_i h1
      right; left
      cases hr
      exact ⟨need_more_invalid _ _ _ _ _, h1, rfl⟩
    · rename_i h1
      have h5 : TLS_HEADER_SIZE ≤ (fill_buffer_to read_buffer input 0 TLS_HEADER_SIZE).1.length :=
        Nat.le_of_not_lt h1
      split at hr
      · cases hr
      · split at hr
        · rename_i h2 h3
          right; right
          cases hr
          have hl := header_length_fill (fill_buffer_to read_buffer input 0 TLS_HEADER_SIZE).1 input
            (fill_buffer_to read_buffer input 0 TLS_HEADER_SIZE).2
            (TLS_HEADER_SIZE + header_length (fill_buffer_to read_buffer input 0 TLS_HEADER_SIZE).1) h5
          refine ⟨need_more_invalid _ _ _ _ _, ?_, ?_, ?_⟩
          · simp only [need_more]
            have hge := fill_buffer_to_length
              (fill_buffer_to read_buffer input 0 TLS_HEADER_SIZE).1 input
              (fill_buffer_to read_buffer input 0 TLS_HEADER_SIZE).2
              (TLS_HEADER_SIZE +
                header_length (fill_buffer_to read_buffer input 0 TLS_HEADER_SIZE).1)
            omega
          · simp only [need_more]
            rw [hl]; exact h3
          · simp only [need_more]
            rw [hl]
        · left
          split at hr
          · cases hr; exact ⟨rfl, rfl⟩
          · split at hr
            · cases hr
            · cases hr; exact ⟨rfl, rfl⟩
  · intro hshort
    have hlen : (fill_buffer_to read_buffer input 0 TLS_HEADER_SIZE).1 = read_buffer ++ input := by
      simp only [fill_buffer_to, TLS_HEADER_SIZE, List.drop_zero, Nat.sub_zero]
      rw [List.take_of_length_le (by omega)]
    have hcons : (fill_buffer_to read_buffer input 0 TLS_HEADER_SIZE).2 = input.length := by
      simp only [fill_buffer_to, TLS_HEADER_SIZE, Nat.sub_zero, Nat.zero_add]
      omega
    refine ⟨need_more pc (read_buffer ++ input) input.length sequence_numbers
      (5 - (read_buffer.length + input.length)), ?_, rfl, rfl, rfl, ?_, ?_,
      need_more_invalid _ _ _ _ _⟩
    · unfold read_record
      simp only [hlen, hcons]
      rw [if_pos (by simp [TLS_HEADER_SIZE]; omega)]
      simp [TLS_HEADER_SIZE]
    · simp only [need_more]; omega
    · simp only [need_more]; omega
  · intro h5 hmax hshort
    obtain ⟨c, hrd⟩ := read_record_header_complete pc read_buffer input sequence_numbers
      get_cipherstate h5
    simp only [TLS_HEADER_SIZE] at hrd
    rw [if_neg (by omega), if_pos hshort] at hrd
    refine ⟨_, hrd, rfl, rfl, rfl, ?_, need_more_invalid _ _ _ _ _⟩
    simp only [need_more]; omega
  · intro h5 hmax hfull
    obtain ⟨c, hrd⟩ := read_record_header_complete pc read_buffer input sequence_numbers
      get_cipherstate h5
    simp only [TLS_HEADER_SIZE] at hrd
    rw [if_neg (by omega), if_neg (by omega)] at hrd
    have hbl : (((read_buffer ++ input).drop 5).take
        (header_length (read_buffer ++ input))).length = header_length (read_buffer ++ input) := by
      rw [List.length_take, List.length_drop, List.length_append]; omega
    refine ⟨?_, ?_, ?_⟩
    · intro hnone
      rw [hnone] at hrd
      simp only [hbl] at hrd
      exact ⟨_, hrd, rfl, rfl⟩
    · intro cs content cs_after hsome hdec
      rw [hsome] at hrd
      simp only [hdec] at hrd
      exact ⟨_, hrd, rfl, rfl⟩
    · intro cs e hsome hdec
      rw [hsome] at hrd
      simp only [hdec] at hrd
      exact hrd
  · intro h5 hov
    obtain ⟨c, hrd⟩ := read_record_header_complete pc read_buffer input sequence_numbers
      get_cipherstate h5
    rw [if_pos hov] at hrd
    exact hrd

/-- C5: round trip. For every plaintext `P` of length 0..16384, protocol version
`V`, record type (the header byte `msg_type` of a record type proper, one that
is read as a type other than the sentinel `NO_RECORD`) and cipher
configuration `C` (including no cipher state), `write_record` succeeds, and
feeding the bytes it appends for `P` to `read_record` yields a valid record
whose contents equal `P` byte for byte and whose version and type are the ones
written. A cipher configuration is a cipher state that satisfies its invariant
with primitives that honour their contract (`well_formed`), whose IV, MAC and
padding overhead fits the maximum ciphertext length and the 16-bit length
field; the round trip hands the reader the cipher state and the sequence
number the writer used. -/
theorem write_read_round_trip (pc : Protocol_Constants) (write_buffer P : List byte)
    (V : Protocol_Version) (msg_type : byte)
    (ws : Connection_Sequence_Numbers) (rs : Option Connection_Sequence_Numbers)
    (C : Option Connection_Cipher_State) (rng : RandomNumberGenerator)
    (get_cipherstate : Nat → Option Connection_Cipher_State)
    (hlen : P.length ≤ MAX_PLAINTEXT_SIZE)
    (htype : pc.record_type_of msg_type ≠ NO_RECORD)
    (hwf : ∀ cs, C = some cs → cs.well_formed)
    (hfit : MAX_PLAINTEXT_SIZE + record_overhead C ≤ pc.max_ciphertext_size)
    (hfit16 : MAX_PLAINTEXT_SIZE + record_overhead C < 65536)
    (hcs : get_cipherstate (reader_epoch rs) = C)
    (hseq : C ≠ none → reader_sequence rs = ws.write_seq_no ws.write_epoch) :
    ∃ w out r, write_record write_buffer msg_type P V ws C rng = .ok w ∧
      w.write_buffer = write_buffer ++ out ∧
      read_record pc [] out rs get_cipherstate = .ok r ∧
      r.bytes_needed = 0 ∧
      r.output_record.is_valid = true ∧
      r.output_record.contents = P ∧
      r.output_record.version = V ∧
      r.output_record.type = pc.record_type_of msg_type := by
  cases C with
  | none =>
    obtain ⟨w, hw, hbuf⟩ := write_record_plain write_buffer msg_type P V ws rng hlen
    have hov : record_overhead none = 0 := rfl
    obtain ⟨r, hr⟩ := read_frame_result pc msg_type (pc.record_type_of msg_type) V P P rs
      get_cipherstate none rfl htype hcs (by omega) (by omega) (fun _ => rfl)
      (fun cs h => by cases h)
    exact ⟨w, _, r, hw, hbuf, hr⟩
  | some cs =>
    obtain ⟨w, body, hw, hbuf, hblen, cs_after, hdec⟩ :=
      write_record_encrypted write_buffer msg_type P V ws cs rng hlen (hwf cs rfl)
    rw [← hseq (by simp)] at hdec
    obtain ⟨r, hr⟩ := read_frame_result pc msg_type (pc.record_type_of msg_type) V P body rs
      get_cipherstate (some cs) rfl htype hcs (by omega) (by omega) (fun h => by cases h)
      (fun cs2 h => by cases h; exact ⟨cs_after, hdec⟩)
    exact ⟨w, _, r, hw, hbuf, hr⟩

/-- Witness of C5: the five bytes of "hello" as application data under the
example block-cipher state with an explicit IV. -/
theorem write_read_round_trip_witness :
    ∃ w out r,
      write_record [] 23 [104, 101, 108, 108, 111] ⟨3, 3⟩ example_sequence_numbers
        (some example_cipher_state) example_rng = .ok w ∧
      w.write_buffer = [] ++ out ∧
      read_record example_constants [] out (some example_sequence_numbers)
        (fun _ => some example_cipher_state) = .ok r ∧
      r.bytes_needed = 0 ∧
      r.output_record.is_valid = true ∧
      r.output_record.contents = [104, 101, 108, 108, 111] ∧
      r.output_record.version = ⟨3, 3⟩ ∧
      r.output_record.type = APPLICATION_DATA :=
  write_read_round_trip example_constants [] [104, 101, 108, 108, 111] ⟨3, 3⟩ 23
    example_sequence_numbers (some example_sequence_numbers)
    (some example_cipher_state) example_rng (fun _ => some example_cipher_state)
    (by decide) (by decide)
    (fun cs h => Option.some.inj h ▸ example_cipher_state_well_formed)
    (by decide) (by decide) rfl (fun _ => rfl)

/-- Witness of C6: a call that leaves the header short, one that leaves the body
short, and one that decodes a plaintext record. -/
theorem read_record_bytes_needed_witness :
    (∃ r, read_record example_constants [22, 3] [3] none (fun _ => none) = .ok r ∧
      r.read_buffer = [22, 3, 3] ∧
      r.input_consumed = 1 ∧
      r.bytes_needed = 2 ∧
      1 ≤ r.bytes_needed ∧ r.bytes_needed ≤ 5 ∧
      r.output_record.is_valid = false) ∧
    (∃ r, read_record example_constants [22, 3, 3, 0, 4] [1, 2] none (fun _ => none) = .ok r ∧
      r.read_buffer = [22, 3, 3, 0, 4, 1, 2] ∧
      r.input_consumed = 2 ∧
      r.bytes_needed = 2 ∧
      1 ≤ r.bytes_needed ∧
      r.output_record.is_valid = false) ∧
    (∃ r, read_record example_constants [22, 3, 3] [0, 2, 9, 8] none (fun _ => none) = .ok r ∧
      r.bytes_needed = 0 ∧
      r.output_record = Record.create 0 ⟨3, 3⟩ APPLICATION_DATA [9, 8] 2) :=
  ⟨(read_record_bytes_needed example_constants [22, 3] [3] none (fun _ => none)).2.1
     (by decide),
   (read_record_bytes_needed example_constants [22, 3, 3, 0, 4] [1, 2] none
     (fun _ => none)).2.2.1 (by decide) (by decide) (by decide),
   ((read_record_bytes_needed example_constants [22, 3, 3] [0, 2, 9, 8] none
     (fun _ => none)).2.2.2.1 (by decide) (by decide) (by decide)).1 rfl⟩

/-- Witness of C7: the example cipher state owns a MAC with 2-byte tags. -/
theorem Connection_Cipher_State.mac_size_defined_witness :
    example_cipher_state.m_mac ≠ none ∧
    ∃ m, example_cipher_state.mac = some m ∧
      example_cipher_state.mac_size = some m.output_length :=
  ⟨by simp [example_cipher_state],
   Connection_Cipher_State.mac_size_defined example_cipher_state
     (by simp [example_cipher_state])⟩

/-- Witness of C10: the example state is a block-cipher state with an explicit
IV, so of the two only `iv_size() > 0` holds. -/
theorem Connection_Cipher_State.cbc_without_explicit_iv_excludes_iv_witness :
    example_cipher_state.block_size > 0 ∧
    ((example_cipher_state.cbc_without_explicit_iv = true ∧
        ¬ example_cipher_state.iv_size > 0) ∨
     (example_cipher_state.cbc_without_explicit_iv = false ∧
        example_cipher_state.iv_size > 0)) :=
  ⟨by decide,
   (Connection_Cipher_State.cbc_without_explicit_iv_excludes_iv example_cipher_state).2.1
     (by decide)⟩

end TLS
end Botan
